import Mathlib

/-!
Verification of the trading_gpt repository: a shallow embedding of the ETL
pipeline (`src/etl/refresh.py`) and the read API (`src/api/main.py`),
with theorems settling the specification claims.

Modelling conventions:
* pandas DataFrames of OHLCV bars become `List Row`; the DuckDB `ohlcv`
  table is a `List Row` (a bag of rows; SQL imposes no intrinsic order).
* calendar timestamps become a `Date` structure ordered lexicographically
  (year, month, day), which is chronological order for calendar dates;
  `dateutil.relativedelta` subtraction is modelled by `subMonths`/`subYears`
  (month normalisation by floor division, day clamped to the target month's
  length, as relativedelta does).
* Python exceptions become `Except`; machine floats become `ℚ` (the claims
  under study are about exact recurrences and guards, not rounding).
* Python `str` operations (`.strip()`, `.lower()`, `.upper()`, `.endswith`,
  slicing, `int(...)`) are modelled over `String.data` for ASCII input.
-/

deriving instance DecidableEq for Except

namespace Trading

/-- A calendar date (timezone-naive timestamp at day granularity, as the
ETL stores after `tz_localize(None)`). -/
structure Date where
  year : ℤ
  month : ℤ
  day : ℤ
deriving DecidableEq, Repr

/-- Chronological (lexicographic) order on dates; this is how pandas and
DuckDB compare the `dt` timestamps. -/
def Date.le (a b : Date) : Prop :=
  a.year < b.year ∨ (a.year = b.year ∧
    (a.month < b.month ∨ (a.month = b.month ∧ a.day ≤ b.day)))

instance (a b : Date) : Decidable (Date.le a b) := by
  unfold Date.le; exact inferInstance

theorem Date.le_refl (a : Date) : Date.le a a := by
  unfold Date.le; omega

theorem Date.le_trans {a b c : Date} (h1 : Date.le a b) (h2 : Date.le b c) :
    Date.le a c := by
  unfold Date.le at *; omega

theorem Date.le_total (a b : Date) : Date.le a b ∨ Date.le b a := by
  unfold Date.le; omega

/-- One row of the `ohlcv` table (schema from `upsert_duckdb`'s
`CREATE TABLE`): dt, open, high, low, close, volume, symbol, ema8/21/50.
`open` is a Lean keyword, hence the field name `open_`. -/
structure Row where
  dt : Date
  open_ : ℚ
  high : ℚ
  low : ℚ
  close : ℚ
  volume : ℤ
  symbol : String
  ema8 : ℚ
  ema21 : ℚ
  ema50 : ℚ
deriving DecidableEq, Repr

/-- The (symbol, timestamp) key of a row. -/
def key (r : Row) : String × Date := (r.symbol, r.dt)

/-- `upsert_duckdb` (src/etl/refresh.py lines 51-75): stage the batch, then
`DELETE FROM ohlcv USING stage WHERE ohlcv.symbol = stage.symbol AND
ohlcv.dt = stage.dt`, then `INSERT INTO ohlcv SELECT * FROM stage`. -/
def upsert_duckdb (ohlcv stage : List Row) : List Row :=
  ohlcv.filter
    (fun r => !(stage.any (fun s => s.symbol == r.symbol && s.dt == r.dt)))
    ++ stage

/-- Every (symbol, timestamp) key occurs at most once in the table. -/
def uniqueKeys (l : List Row) : Prop :=
  l.Pairwise (fun a b => key a ≠ key b)

instance (l : List Row) : Decidable (uniqueKeys l) := by
  unfold uniqueKeys; exact List.instDecidablePairwise l

/-- The delete filter keeps exactly the stored rows whose key is absent
from the staged batch. -/
theorem upsert_filter_spec (stage : List Row) (r : Row) :
    (!(stage.any (fun s => s.symbol == r.symbol && s.dt == r.dt))) = true ↔
      ∀ b ∈ stage, key b ≠ key r := by
  simp only [Bool.not_eq_true', List.any_eq_false, Bool.and_eq_true,
    beq_iff_eq, key, ne_eq, Prod.mk.injEq, not_and]

/-- A sample date used in concrete counterexamples and witnesses. -/
def d0 : Date := ⟨2024, 1, 2⟩

/-- A concrete bar for key ("A", d0) with close 10. -/
def rowA10 : Row := ⟨d0, 10, 11, 9, 10, 1000, "A", 10, 10, 10⟩

/-- A concrete bar for the same key ("A", d0) with close 12. -/
def rowA12 : Row := ⟨d0, 10, 12, 9, 12, 1500, "A", 12, 12, 12⟩

/-- C1 (counterexample): as universally stated over *every* batch, the
uniqueness invariant fails — a staged batch that itself repeats a
(symbol, timestamp) key is inserted wholesale, so the stored table ends up
with that key twice. Starting from an empty table, upserting the two-row
batch [rowA10, rowA12] (both with key ("A", d0)) leaves both rows. -/
theorem upsert_dup_key_counterexample :
    ¬ uniqueKeys (upsert_duckdb [] [rowA10, rowA12]) := by decide

/-- C1 (amended): provided the stored table and the staged batch each
contain at most one row per (symbol, timestamp) key, after `upsert_duckdb`
(1) keys are again unique, (2) every batch row is stored, (3) any stored
row whose key occurs in the batch is a batch row (old rows with
overlapping keys were replaced), and (4) any stored row whose key does not
occur in the batch was already stored before. -/
theorem upsert_key_unique (ohlcv stage : List Row)
    (hs : uniqueKeys ohlcv) (hb : uniqueKeys stage) :
    uniqueKeys (upsert_duckdb ohlcv stage) ∧
    (∀ b ∈ stage, b ∈ upsert_duckdb ohlcv stage) ∧
    (∀ r ∈ upsert_duckdb ohlcv stage,
      (∃ b ∈ stage, key b = key r) → r ∈ stage) ∧
    (∀ r ∈ upsert_duckdb ohlcv stage,
      (∀ b ∈ stage, key b ≠ key r) → r ∈ ohlcv) := by
  unfold upsert_duckdb uniqueKeys
  refine ⟨?_, ?_, ?_, ?_⟩
  · rw [List.pairwise_append]
    refine ⟨List.Pairwise.sublist (List.filter_sublist _) hs, hb, ?_⟩
    intro a ha b hbm
    rw [List.mem_filter] at ha
    exact fun h => ((upsert_filter_spec stage a).mp ha.2 b hbm) h.symm
  · intro b hbm
    exact List.mem_append_right _ hbm
  · intro r hr hex
    rcases List.mem_append.mp hr with hleft | hright
    · rw [List.mem_filter] at hleft
      rcases hex with ⟨b, hbm, hk⟩
      exact absurd hk ((upsert_filter_spec stage r).mp hleft.2 b hbm)
    · exact hright
  · intro r hr hall
    rcases List.mem_append.mp hr with hleft | hright
    · exact (List.mem_filter.mp hleft).1
    · exact absurd rfl (hall r hright)

/-- C1 witness: the amended theorem applied to the overlap-replace example
of §8 of the spec — store holding close=10 for ("A", d0), batch holding
close=12 for the same key. -/
theorem upsert_key_unique_witness :
    uniqueKeys [rowA10] ∧ uniqueKeys [rowA12] ∧
    (uniqueKeys (upsert_duckdb [rowA10] [rowA12]) ∧
     (∀ b ∈ [rowA12], b ∈ upsert_duckdb [rowA10] [rowA12]) ∧
     (∀ r ∈ upsert_duckdb [rowA10] [rowA12],
       (∃ b ∈ [rowA12], key b = key r) → r ∈ [rowA12]) ∧
     (∀ r ∈ upsert_duckdb [rowA10] [rowA12],
       (∀ b ∈ [rowA12], key b ≠ key r) → r ∈ [rowA10])) :=
  ⟨by decide, by decide,
    upsert_key_unique [rowA10] [rowA12] (by decide) (by decide)⟩

/-- C2: upsert is idempotent — re-running the same batch against the state
it produced yields exactly the same stored rows, for every batch and every
starting state. -/
theorem upsert_idempotent (ohlcv stage : List Row) :
    upsert_duckdb (upsert_duckdb ohlcv stage) stage =
      upsert_duckdb ohlcv stage := by
  unfold upsert_duckdb
  rw [List.filter_append, List.filter_filter]
  have h1 : List.filter
      (fun r => ((!(stage.any (fun s => s.symbol == r.symbol && s.dt == r.dt))) &&
        (!(stage.any (fun s => s.symbol == r.symbol && s.dt == r.dt))))) ohlcv =
      List.filter
       (fun r => (!(stage.any (fun s => s.symbol == r.symbol && s.dt == r.dt)))) ohlcv := by
    apply List.filter_congr
    intro x _
    exact Bool.and_self _
  have h2 : List.filter
      (fun r => (!(stage.any (fun s => s.symbol == r.symbol && s.dt == r.dt)))) stage
      = [] := by
    rw [List.filter_eq_nil_iff]
    intro b hbm
    simp only [Bool.not_eq_true', Bool.not_eq_false, List.any_eq_true]
    exact ⟨b, hbm, by simp⟩
  rw [h1, h2, List.append_nil]

/-! ### Decimal numerals: `Nat.repr` is injective

Needed because `add_emas` names its output columns with the f-string
`f"ema{w}"`, i.e. `"ema" ++ toString w`: distinct windows must yield
distinct column names. -/

/-- Value of a decimal digit character ('0'-'9'; other characters, which
`Nat.digitChar` never produces in base 10, read as 0). -/
def digVal (c : Char) : ℕ :=
  if c = '0' then 0 else if c = '1' then 1 else if c = '2' then 2 else
  if c = '3' then 3 else if c = '4' then 4 else if c = '5' then 5 else
  if c = '6' then 6 else if c = '7' then 7 else if c = '8' then 8 else
  if c = '9' then 9 else 0

/-- Read a digit string most-significant-first, with accumulator. -/
def digitsValFrom (a : ℕ) : List Char → ℕ
  | [] => a
  | c :: t => digitsValFrom (a * 10 + digVal c) t

theorem digitsValFrom_shift (l : List Char) :
    ∀ a : ℕ, digitsValFrom a l = a * 10 ^ l.length + digitsValFrom 0 l := by
  induction l with
  | nil => intro a; simp [digitsValFrom]
  | cons c t ih =>
    intro a
    show digitsValFrom (a * 10 + digVal c) t = _
    rw [ih (a * 10 + digVal c)]
    have h0 : digitsValFrom 0 (c :: t) = digitsValFrom (digVal c) t := by
      show digitsValFrom (0 * 10 + digVal c) t = _
      norm_num
    rw [h0, ih (digVal c)]
    simp only [List.length_cons, pow_succ]
    ring

theorem digVal_digitChar (n : ℕ) (h : n < 10) :
    digVal (Nat.digitChar n) = n := by
  interval_cases n <;> rfl

theorem toDigitsCore_val (fuel : ℕ) :
    ∀ (n : ℕ) (ds : List Char), n ≤ fuel →
      digitsValFrom 0 (Nat.toDigitsCore 10 fuel n ds) =
        n * 10 ^ ds.length + digitsValFrom 0 ds := by
  induction fuel with
  | zero =>
    intro n ds hn
    have hz : n = 0 := by omega
    subst hz
    show digitsValFrom 0 ds = 0 * 10 ^ ds.length + digitsValFrom 0 ds
    omega
  | succ f ih =>
    intro n ds hn
    have hstep : Nat.toDigitsCore 10 (f + 1) n ds =
        if n / 10 = 0 then Nat.digitChar (n % 10) :: ds
        else Nat.toDigitsCore 10 f (n / 10) (Nat.digitChar (n % 10) :: ds) := rfl
    have hcons : digitsValFrom 0 (Nat.digitChar (n % 10) :: ds) =
        (n % 10) * 10 ^ ds.length + digitsValFrom 0 ds := by
      show digitsValFrom (0 * 10 + digVal (Nat.digitChar (n % 10))) ds = _
      rw [digitsValFrom_shift ds, digVal_digitChar (n % 10) (by omega)]
      norm_num
    rw [hstep]
    by_cases h10 : n / 10 = 0
    · rw [if_pos h10, hcons]
      have : n % 10 = n := by omega
      rw [this]
    · rw [if_neg h10, ih (n / 10) _ (by omega)]
      rw [List.length_cons, hcons, pow_succ]
      have hdm : 10 * (n / 10) + n % 10 = n := Nat.div_add_mod n 10
      calc n / 10 * (10 ^ ds.length * 10) +
            ((n % 10) * 10 ^ ds.length + digitsValFrom 0 ds)
          = (10 * (n / 10) + n % 10) * 10 ^ ds.length + digitsValFrom 0 ds := by
            ring
        _ = n * 10 ^ ds.length + digitsValFrom 0 ds := by rw [hdm]

theorem reprNat_injective {m n : ℕ} (h : Nat.repr m = Nat.repr n) : m = n := by
  have hd : Nat.toDigits 10 m = Nat.toDigits 10 n := congrArg String.data h
  have hm := toDigitsCore_val (m + 1) m [] (by omega)
  have hn := toDigitsCore_val (n + 1) n [] (by omega)
  simp only [List.length_nil, pow_zero, mul_one] at hm hn
  have hm' : digitsValFrom 0 (Nat.toDigits 10 m) = m := by
    simpa [Nat.toDigits, digitsValFrom] using hm
  have hn' : digitsValFrom 0 (Nat.toDigits 10 n) = n := by
    simpa [Nat.toDigits, digitsValFrom] using hn
  rw [← hm', ← hn', hd]

/-! ### Indicator Engine: `add_emas` -/

/-- The column name `f"ema{w}"`. -/
def emaName (w : ℕ) : String := "ema" ++ toString w

theorem emaName_injective {v w : ℕ} (h : emaName v = emaName w) : v = w := by
  unfold emaName at h
  have hdata := congrArg String.data h
  rw [String.data_append, String.data_append] at hdata
  have hTail : (toString v).data = (toString w).data :=
    List.append_cancel_left hdata
  have hstr : Nat.repr v = Nat.repr w := by
    have hd : (Nat.repr v).data = (Nat.repr w).data := hTail
    exact String.ext hd
  exact reprNat_injective hstr

/-- Smoothing factor for `ewm(span=w)`: `alpha = 2/(w+1)`. -/
def ewmAlpha (w : ℕ) : ℚ := 2 / (w + 1)

/-- The tail of the EWM recurrence `y = alpha*x + (1-alpha)*prev`,
continuing from a previous smoothed value. -/
def ewmGo (alpha prev : ℚ) : List ℚ → List ℚ
  | [] => []
  | x :: xs =>
    (alpha * x + (1 - alpha) * prev) ::
      ewmGo alpha (alpha * x + (1 - alpha) * prev) xs

/-- `Series.ewm(span=w, adjust=False).mean()`: seeded with the first
value, then the recurrence `y[i] = alpha*x[i] + (1-alpha)*y[i-1]`. -/
def ewmMean (w : ℕ) : List ℚ → List ℚ
  | [] => []
  | x :: xs => x :: ewmGo (ewmAlpha w) x xs

/-- A pandas DataFrame as `add_emas` sees it: the `close` series plus the
named indicator columns added by assignment. -/
structure Df where
  close : List ℚ
  cols : List (String × List ℚ)
deriving DecidableEq, Repr

/-- Column assignment `df[name] = v`: replaces the column in place when
the name exists, else appends it. -/
def colSet (cols : List (String × List ℚ)) (nm : String) (v : List ℚ) :
    List (String × List ℚ) :=
  match cols with
  | [] => [(nm, v)]
  | (n, c) :: rest =>
    if n = nm then (nm, v) :: rest else (n, c) :: colSet rest nm v

def setCol (df : Df) (nm : String) (v : List ℚ) : Df :=
  ⟨df.close, colSet df.cols nm v⟩

def getCol (df : Df) (nm : String) : Option (List ℚ) := df.cols.lookup nm

/-- The loop body of `add_emas`: `df[f"ema{w}"] = df["close"].ewm(...)`. -/
def addEmaCols (df : Df) (windows : List ℕ) : Df :=
  windows.foldl (fun d w => setCol d (emaName w) (ewmMean w d.close)) df

/-- `add_emas` (src/etl/refresh.py lines 44-49): return the frame
unchanged when empty, else add one EWM column per window. -/
def add_emas (df : Df) (windows : List ℕ) : Df :=
  if df.close.isEmpty then df else addEmaCols df windows

theorem setCol_close (df : Df) (nm : String) (v : List ℚ) :
    (setCol df nm v).close = df.close := rfl

theorem addEmaCols_close (windows : List ℕ) :
    ∀ df : Df, (addEmaCols df windows).close = df.close := by
  induction windows with
  | nil => intro df; rfl
  | cons w rest ih => intro df; exact ih _

theorem lookup_colSet_self (cols : List (String × List ℚ))
    (nm : String) (v : List ℚ) :
    (colSet cols nm v).lookup nm = some v := by
  induction cols with
  | nil => simp [colSet, List.lookup]
  | cons p rest ih =>
    obtain ⟨n, c⟩ := p
    by_cases h : n = nm
    · simp [colSet, h, List.lookup]
    · have hb : (nm == n) = false := beq_eq_false_iff_ne.mpr (Ne.symm h)
      simp [colSet, h, List.lookup, hb, ih]

theorem lookup_colSet_other (cols : List (String × List ℚ))
    (nm nm' : String) (v : List ℚ) (h : nm' ≠ nm) :
    (colSet cols nm v).lookup nm' = cols.lookup nm' := by
  induction cols with
  | nil =>
    have hb : (nm' == nm) = false := beq_eq_false_iff_ne.mpr h
    simp [colSet, List.lookup, hb]
  | cons p rest ih =>
    obtain ⟨n, c⟩ := p
    by_cases hn : n = nm
    · subst hn
      have hb : (nm' == n) = false := beq_eq_false_iff_ne.mpr h
      simp [colSet, List.lookup, hb]
    · by_cases hn' : nm' = n
      · subst hn'
        simp [colSet, hn, List.lookup]
      · have hb : (nm' == n) = false := beq_eq_false_iff_ne.mpr hn'
        simp [colSet, hn, List.lookup, hb, ih]

theorem getCol_addEmaCols_untouched (windows : List ℕ) (nm : String)
    (h : ∀ w ∈ windows, emaName w ≠ nm) :
    ∀ df : Df, getCol (addEmaCols df windows) nm = getCol df nm := by
  induction windows with
  | nil => intro df; rfl
  | cons w rest ih =>
    intro df
    have hstep : addEmaCols df (w :: rest) =
        addEmaCols (setCol df (emaName w) (ewmMean w df.close)) rest := rfl
    rw [hstep, ih (fun w' hw' => h w' (List.mem_cons_of_mem w hw'))]
    exact lookup_colSet_other _ _ _ _
      (fun he => h w (List.mem_cons_self w rest) he.symm)

theorem getCol_addEmaCols (windows : List ℕ) (w : ℕ) :
    ∀ df : Df, w ∈ windows →
      getCol (addEmaCols df windows) (emaName w) =
        some (ewmMean w df.close) := by
  induction windows with
  | nil => intro df hw; cases hw
  | cons w' rest ih =>
    intro df hw
    have hstep : addEmaCols df (w' :: rest) =
        addEmaCols (setCol df (emaName w') (ewmMean w' df.close)) rest := rfl
    by_cases hmem : w ∈ rest
    · rw [hstep, ih _ hmem, setCol_close]
    · have hww : w = w' := by
        rcases List.mem_cons.mp hw with h | h
        · exact h
        · exact absurd h hmem
      subst hww
      rw [hstep, getCol_addEmaCols_untouched rest (emaName w)
        (fun w'' hw'' heq => hmem (emaName_injective heq ▸ hw''))]
      exact lookup_colSet_self _ _ _

theorem ewmGo_length (alpha : ℚ) :
    ∀ (xs : List ℚ) (prev : ℚ), (ewmGo alpha prev xs).length = xs.length := by
  intro xs
  induction xs with
  | nil => intro prev; rfl
  | cons x t ih => intro prev; simp [ewmGo, ih]

theorem ewmMean_length (w : ℕ) (l : List ℚ) :
    (ewmMean w l).length = l.length := by
  cases l with
  | nil => rfl
  | cons x xs => simp [ewmMean, ewmGo_length]

theorem ewmGo_get (alpha : ℚ) :
    ∀ (xs : List ℚ) (prev : ℚ) (i : ℕ), i < xs.length →
      (ewmGo alpha prev xs)[i]? =
        some (alpha * xs.getD i 0 +
          (1 - alpha) * ((prev :: ewmGo alpha prev xs).getD i 0)) := by
  intro xs
  induction xs with
  | nil => intro prev i h; simp at h
  | cons x t ih =>
    intro prev i h
    cases i with
    | zero => simp [ewmGo, List.getD]
    | succ j =>
      have hj : j < t.length := by simpa using h
      have := ih (alpha * x + (1 - alpha) * prev) j hj
      simp only [ewmGo, List.getElem?_cons_succ, List.getD_cons_succ]
      simpa using this

theorem ewmMean_recurrence (w : ℕ) (l : List ℚ) (i : ℕ)
    (h : i + 1 < l.length) :
    (ewmMean w l)[i + 1]? =
      some (ewmAlpha w * l.getD (i + 1) 0 +
        (1 - ewmAlpha w) * (ewmMean w l).getD i 0) := by
  cases l with
  | nil => simp at h
  | cons x xs =>
    have hi : i < xs.length := by simpa using h
    have := ewmGo_get (ewmAlpha w) xs x i hi
    simp only [ewmMean, List.getElem?_cons_succ, List.getD_cons_succ,
      List.getD_cons_zero]
    simpa using this

/-- C3: on a non-empty series, for every requested window `w` the output
carries a column named `ema{w}` whose values satisfy the EWM recurrence
with `alpha = 2/(w+1)`: first value equals the first close, and each later
value is `alpha*close[i] + (1-alpha)*ema[i-1]`; on an empty series the
input is returned unchanged. -/
theorem add_emas_spec (df : Df) (windows : List ℕ) (w : ℕ)
    (hw : w ∈ windows) :
    (df.close = [] → add_emas df windows = df) ∧
    (df.close ≠ [] →
      ∃ e, getCol (add_emas df windows) (emaName w) = some e ∧
        e.length = df.close.length ∧
        e.head? = df.close.head? ∧
        ∀ i : ℕ, i + 1 < df.close.length →
          e[i + 1]? = some (ewmAlpha w * df.close.getD (i + 1) 0 +
            (1 - ewmAlpha w) * e.getD i 0)) := by
  constructor
  · intro hcl
    simp [add_emas, hcl]
  · intro hne
    have hemp : df.close.isEmpty = false := by
      cases hc : df.close with
      | nil => exact absurd hc hne
      | cons x xs => simp [hc]
    refine ⟨ewmMean w df.close, ?_, ewmMean_length w df.close, ?_, ?_⟩
    · rw [add_emas, if_neg (by simp [hemp])]
      exact getCol_addEmaCols windows w df hw
    · cases hc : df.close with
      | nil => exact absurd hc hne
      | cons x xs => simp [ewmMean]
    · intro i hi
      exact ewmMean_recurrence w df.close i hi

/-- C3 witness: the spec's worked example — closes [10, 12, 11] with
window 2 (alpha = 2/3). -/
theorem add_emas_spec_witness :
    (([10, 12, 11] : List ℚ) ≠ []) ∧
    (∃ e, getCol (add_emas ⟨[10, 12, 11], []⟩ [2]) (emaName 2) = some e ∧
      e.length = ([10, 12, 11] : List ℚ).length ∧
      e.head? = ([10, 12, 11] : List ℚ).head? ∧
      ∀ i : ℕ, i + 1 < ([10, 12, 11] : List ℚ).length →
        e[i + 1]? = some (ewmAlpha 2 * ([10, 12, 11] : List ℚ).getD (i + 1) 0 +
          (1 - ewmAlpha 2) * e.getD i 0)) :=
  ⟨by decide,
    (add_emas_spec ⟨[10, 12, 11], []⟩ [2] 2 (by decide)).2 (by decide)⟩

/-! ### Python string primitives (ASCII), over `String.data` -/

/-- Python `str.lower` on ASCII. -/
def lowerChar (c : Char) : Char :=
  if 'A' ≤ c ∧ c ≤ 'Z' then Char.ofNat (c.toNat + 32) else c

/-- Python `str.upper` on ASCII. -/
def upperChar (c : Char) : Char :=
  if 'a' ≤ c ∧ c ≤ 'z' then Char.ofNat (c.toNat - 32) else c

/-- The whitespace stripped by Python `str.strip()`. -/
def isPySpace (c : Char) : Bool :=
  c = ' ' || c = '\t' || c = '\n' || c = '\r' || c = '\x0b' || c = '\x0c'

def pyStripList (l : List Char) : List Char :=
  ((l.dropWhile isPySpace).reverse.dropWhile isPySpace).reverse

def pyStrip (s : String) : String := ⟨pyStripList s.data⟩

def pyLower (s : String) : String := ⟨s.data.map lowerChar⟩

def pyUpper (s : String) : String := ⟨s.data.map upperChar⟩

/-- Python `s.endswith(t)`. -/
def pyEndsWith (s t : String) : Bool := t.data.isSuffixOf s.data

/-- Python slicing `s[:-n]` for `n ≥ 1` (empty when `n ≥ len(s)`). -/
def pyDropRight (s : String) (n : ℕ) : String :=
  ⟨s.data.take (s.data.length - n)⟩

def pyDigit (c : Char) : Option ℕ :=
  if c = '0' then some 0 else if c = '1' then some 1 else
  if c = '2' then some 2 else if c = '3' then some 3 else
  if c = '4' then some 4 else if c = '5' then some 5 else
  if c = '6' then some 6 else if c = '7' then some 7 else
  if c = '8' then some 8 else if c = '9' then some 9 else none

def digitsNatGo (acc : ℕ) : List Char → Option ℕ
  | [] => some acc
  | c :: t =>
    match pyDigit c with
    | none => none
    | some d => digitsNatGo (acc * 10 + d) t

def digitsNat : List Char → Option ℕ
  | [] => none
  | c :: t =>
    match pyDigit c with
    | none => none
    | some d => digitsNatGo d t

/-- Python `int(s)`: surrounding whitespace tolerated, optional sign,
then a non-empty run of decimal digits; anything else raises
(`ValueError`), modelled as `none`. -/
def pyInt (s : String) : Option ℤ :=
  match pyStripList s.data with
  | '-' :: rest => (digitsNat rest).map (fun v : ℕ => -(v : ℤ))
  | '+' :: rest => (digitsNat rest).map (fun v : ℕ => (v : ℤ))
  | l => (digitsNat l).map (fun v : ℕ => (v : ℤ))

/-! ### Normalizer: the column handling of `fetch` -/

/-- Column canonicalisation of `fetch` (src/etl/refresh.py lines 30-34):
strip + lower-case every column name, then rename `date` to `dt`, or else
`datetime` to `dt`. -/
def canonCols (cols : List String) : List String :=
  let lc := cols.map (fun c => pyLower (pyStrip c))
  if lc.contains "date" then
    lc.map (fun c => if c = "date" then "dt" else c)
  else if lc.contains "datetime" then
    lc.map (fun c => if c = "datetime" then "dt" else c)
  else lc

def requiredCols : List String := ["dt", "open", "high", "low", "close", "volume"]

/-- `missing = [c for c in required if c not in df.columns]`. -/
def missingCols (cols : List String) : List String :=
  requiredCols.filter (fun c => !(cols.contains c))

/-- The column-schema behaviour of `fetch` (src/etl/refresh.py lines
20-42), taking the downloaded frame's raw column names and row count: an
empty download returns the canonical empty frame (no error); otherwise the
columns are canonicalised and a `KeyError` is raised exactly when required
columns are missing, carrying the missing list and the full present list
(the two lists interpolated into the message). On success the frame is
restricted to the required columns plus the attached `symbol`. -/
def fetch (rawCols : List String) (nrows : ℕ) :
    Except (List String × List String) (List String) :=
  if nrows = 0 then .ok ["dt", "open", "high", "low", "close", "volume", "symbol"]
  else
    let cols := canonCols rawCols
    let missing := missingCols cols
    if missing.isEmpty then .ok (requiredCols ++ ["symbol"])
    else .error (missing, cols)

/-- C5: for a non-empty download, `fetch` fails with a schema error
exactly when, after renaming and lower-casing, some required field is
absent; the error payload is precisely the list of missing required
fields together with the full list of fields present; and a frame lacking
a close field yields an error naming "close" among the missing fields. -/
theorem fetch_schema_error (rawCols : List String) (nrows : ℕ)
    (h : 0 < nrows) :
    ((∃ m g, fetch rawCols nrows = .error (m, g)) ↔
      ∃ c ∈ requiredCols, c ∉ canonCols rawCols) ∧
    (∀ m g, fetch rawCols nrows = .error (m, g) →
      m = missingCols (canonCols rawCols) ∧ g = canonCols rawCols ∧
      ∀ c ∈ requiredCols, c ∉ canonCols rawCols → c ∈ m) ∧
    ("close" ∉ canonCols rawCols →
      ∃ m g, fetch rawCols nrows = .error (m, g) ∧ "close" ∈ m) := by
  have hn : nrows ≠ 0 := by omega
  have hmem : ∀ c, c ∈ missingCols (canonCols rawCols) ↔
      c ∈ requiredCols ∧ c ∉ canonCols rawCols := by
    intro c
    simp [missingCols, List.mem_filter]
  constructor
  · constructor
    · rintro ⟨m, g, hmg⟩
      simp only [fetch, if_neg hn] at hmg
      by_cases hmiss : (missingCols (canonCols rawCols)).isEmpty
      · rw [if_pos hmiss] at hmg; cases hmg
      · have hmiss' : (missingCols (canonCols rawCols)).isEmpty = false := by
          simpa using hmiss
        rw [List.isEmpty_eq_false_iff_exists_mem] at hmiss'
        obtain ⟨c, hc⟩ := hmiss'
        exact ⟨c, ((hmem c).mp hc).1, ((hmem c).mp hc).2⟩
    · rintro ⟨c, hcr, hcn⟩
      have hc : c ∈ missingCols (canonCols rawCols) := (hmem c).mpr ⟨hcr, hcn⟩
      have hne : (missingCols (canonCols rawCols)).isEmpty = false := by
        rw [List.isEmpty_eq_false_iff_exists_mem]; exact ⟨c, hc⟩
      refine ⟨missingCols (canonCols rawCols), canonCols rawCols, ?_⟩
      simp [fetch, if_neg hn, hne]
  constructor
  · intro m g hmg
    simp only [fetch, if_neg hn] at hmg
    by_cases hmiss : (missingCols (canonCols rawCols)).isEmpty
    · rw [if_pos hmiss] at hmg; cases hmg
    · rw [if_neg hmiss] at hmg
      injection hmg with hpair
      injection hpair with h1 h2
      subst h1
      subst h2
      exact ⟨rfl, rfl, fun c hcr hcn => (hmem c).mpr ⟨hcr, hcn⟩⟩
  · intro hclose
    have hc : "close" ∈ missingCols (canonCols rawCols) :=
      (hmem "close").mpr ⟨by decide, hclose⟩
    have hne : (missingCols (canonCols rawCols)).isEmpty = false := by
      rw [List.isEmpty_eq_false_iff_exists_mem]; exact ⟨_, hc⟩
    exact ⟨missingCols (canonCols rawCols), canonCols rawCols,
      by simp [fetch, if_neg hn, hne], hc⟩

/-- C5 witness: a yfinance-style frame whose only close-like column is
"Adj Close" — no canonical `close` — with one row. -/
theorem fetch_schema_error_witness :
    ∃ m g,
      fetch ["Date", "Open", "High", "Low", "Adj Close", "Volume"] 1 =
        .error (m, g) ∧ "close" ∈ m :=
  (fetch_schema_error ["Date", "Open", "High", "Low", "Adj Close", "Volume"]
    1 (by decide)).2.2 (by decide)

/-! ### Ingestion Orchestrator: the per-symbol loop of `main` -/

/-- Terminal state of one symbol in an ingestion run. -/
inductive Outcome where
  | okRows (n : ℕ)
  | skippedEmpty
  | fetchFailed
  | upsertFailed
deriving DecidableEq, Repr

/-- The per-symbol loop of `main` (src/etl/refresh.py lines 77-95).
External effects are oracles: `fetchO` is the (possibly raising) fetch per
symbol, `transform` is the pure `add_emas` step applied to the fetched
frame, and `upsertFails` says whether `upsert_duckdb` raises for this
symbol's batch (a failed upsert's partial storage effects are not needed
by any claim and the store is left as-is). Fetch errors are caught and
`continue`; empty frames are skipped without storing; upsert errors are
caught; otherwise the batch is upserted. Returns the final store and one
logged outcome per processed symbol. -/
def mainLoop (fetchO : String → Except Unit (List Row))
    (transform : List Row → List Row) (upsertFails : String → Bool) :
    List String → List Row → List Row × List (String × Outcome)
  | [], store => (store, [])
  | sym :: rest, store =>
    match fetchO sym with
    | .error _ =>
      let r := mainLoop fetchO transform upsertFails rest store
      (r.1, (sym, .fetchFailed) :: r.2)
    | .ok d =>
      if d.isEmpty then
        let r := mainLoop fetchO transform upsertFails rest store
        (r.1, (sym, .skippedEmpty) :: r.2)
      else if upsertFails sym then
        let r := mainLoop fetchO transform upsertFails rest store
        (r.1, (sym, .upsertFailed) :: r.2)
      else
        let r := mainLoop fetchO transform upsertFails rest
          (upsert_duckdb store (transform d))
        (r.1, (sym, .okRows (transform d).length) :: r.2)

/-- C6: the run logs exactly one outcome per configured symbol, in order,
whatever the fetch/upsert oracles do — no symbol's failure aborts the run;
a symbol that raises on fetch is recorded and the store is untouched by
it; a symbol fetching zero rows is recorded as a skip, with no upsert
performed (store passed through unchanged), before continuing. -/
theorem mainLoop_isolated (fetchO : String → Except Unit (List Row))
    (transform : List Row → List Row) (upsertFails : String → Bool)
    (syms : List String) (store : List Row) :
    ((mainLoop fetchO transform upsertFails syms store).2.map Prod.fst =
      syms) ∧
    (∀ sym rest, syms = sym :: rest → fetchO sym = .ok [] →
      mainLoop fetchO transform upsertFails syms store =
        ((mainLoop fetchO transform upsertFails rest store).1,
          (sym, Outcome.skippedEmpty) ::
            (mainLoop fetchO transform upsertFails rest store).2)) ∧
    (∀ sym rest e, syms = sym :: rest → fetchO sym = .error e →
      mainLoop fetchO transform upsertFails syms store =
        ((mainLoop fetchO transform upsertFails rest store).1,
          (sym, Outcome.fetchFailed) ::
            (mainLoop fetchO transform upsertFails rest store).2)) := by
  refine ⟨?_, ?_, ?_⟩
  · induction syms generalizing store with
    | nil => rfl
    | cons sym rest ih =>
      show (mainLoop fetchO transform upsertFails (sym :: rest) store).2.map
        Prod.fst = sym :: rest
      cases hfetch : fetchO sym with
      | error e => simp [mainLoop, hfetch, ih]
      | ok d =>
        by_cases hd : d.isEmpty
        · simp [mainLoop, hfetch, hd, ih]
        · by_cases hu : upsertFails sym
          · simp [mainLoop, hfetch, hd, hu, ih]
          · simp [mainLoop, hfetch, hd, hu, ih]
  · intro sym rest hsyms hfetch
    subst hsyms
    simp [mainLoop, hfetch]
  · intro sym rest e hsyms hfetch
    subst hsyms
    simp [mainLoop, hfetch]

/-- A concrete fetch oracle: "BAD" raises, "EMPTY" fetches zero rows,
anything else fetches one bar. -/
def fetchEx : String → Except Unit (List Row) := fun sym =>
  if sym = "BAD" then .error ()
  else if sym = "EMPTY" then .ok [] else .ok [rowA10]

/-- C6 witness: under `fetchEx`, a run over ["EMPTY", "A"] logs one
outcome per symbol in order, and the empty fetch is a skip that passes
the store through unchanged. -/
theorem mainLoop_isolated_witness :
    ((mainLoop fetchEx id (fun _ => false) ["EMPTY", "A"] []).2.map
      Prod.fst = ["EMPTY", "A"]) ∧
    mainLoop fetchEx id (fun _ => false) ["EMPTY", "A"] [] =
      ((mainLoop fetchEx id (fun _ => false) ["A"] []).1,
        ("EMPTY", Outcome.skippedEmpty) ::
          (mainLoop fetchEx id (fun _ => false) ["A"] []).2) :=
  ⟨(mainLoop_isolated fetchEx id (fun _ => false) ["EMPTY", "A"] []).1,
   (mainLoop_isolated fetchEx id (fun _ => false) ["EMPTY", "A"] []).2.1
     "EMPTY" ["A"] rfl (by decide)⟩

/-! ### Query Façade: period parsing in `_load` -/

inductive PeriodUnit where
  | mo
  | yr
deriving DecidableEq, Repr

/-- `(period or "6mo").strip().lower()` — note Python's `or` also replaces
an empty string. -/
def canonPeriod (period : Option String) : String :=
  pyLower (pyStrip (match period with
    | none => "6mo"
    | some p => if p = "" then "6mo" else p))

/-- The period-parsing head of `_load` (src/api/main.py lines 48-53):
defaults to (6, months); a `"mo"` suffix reads the prefix with `int(...)`
as months; else a `"yr"` or `"y"` suffix reads it as years; `int(...)`
raising `ValueError` propagates out of the request (modelled as
`.error ()`). -/
def parseSpec (period : Option String) : Except Unit (ℤ × PeriodUnit) :=
  let s := canonPeriod period
  if pyEndsWith s "mo" then
    match pyInt (pyDropRight s 2) with
    | some n => .ok (n, .mo)
    | none => .error ()
  else if pyEndsWith s "yr" then
    match pyInt (pyDropRight s 2) with
    | some n => .ok (n, .yr)
    | none => .error ()
  else if pyEndsWith s "y" then
    match pyInt (pyDropRight s 1) with
    | some n => .ok (n, .yr)
    | none => .error ()
  else .ok (6, .mo)

/-- C7 (counterexample): the claim says an unparseable period never fails
with an error, but a period whose suffix is a recognized unit and whose
numeric prefix is not an integer — here "amo" — makes `int("a")` raise,
failing the request. -/
theorem parseSpec_error_counterexample :
    parseSpec (some "amo") = .error () := by decide

/-- C7 (amended): the parser accepts an integer followed by `mo`/`yr`/`y`
(months resp. years); it falls back to 6 months when the period is
unspecified or when its suffix is not a recognized unit; but when a
recognized suffix is preceded by a prefix `int(...)` cannot read, the
parse raises instead of defaulting. -/
theorem parseSpec_amended (period : Option String) :
    (period = none → parseSpec period = .ok (6, .mo)) ∧
    (pyEndsWith (canonPeriod period) "mo" = false →
      pyEndsWith (canonPeriod period) "yr" = false →
      pyEndsWith (canonPeriod period) "y" = false →
      parseSpec period = .ok (6, .mo)) ∧
    (∀ n : ℤ, pyEndsWith (canonPeriod period) "mo" = true →
      pyInt (pyDropRight (canonPeriod period) 2) = some n →
      parseSpec period = .ok (n, .mo)) ∧
    (pyEndsWith (canonPeriod period) "mo" = true →
      pyInt (pyDropRight (canonPeriod period) 2) = none →
      parseSpec period = .error ()) ∧
    (∀ n : ℤ, pyEndsWith (canonPeriod period) "mo" = false →
      pyEndsWith (canonPeriod period) "yr" = true →
      pyInt (pyDropRight (canonPeriod period) 2) = some n →
      parseSpec period = .ok (n, .yr)) ∧
    (∀ n : ℤ, pyEndsWith (canonPeriod period) "mo" = false →
      pyEndsWith (canonPeriod period) "yr" = false →
      pyEndsWith (canonPeriod period) "y" = true →
      pyInt (pyDropRight (canonPeriod period) 1) = some n →
      parseSpec period = .ok (n, .yr)) := by
  refine ⟨?_, ?_, ?_, ?_, ?_, ?_⟩
  · intro hnone; subst hnone; decide
  · intro h1 h2 h3; simp [parseSpec, h1, h2, h3]
  · intro n h1 h2; simp [parseSpec, h1, h2]
  · intro h1 h2; simp [parseSpec, h1, h2]
  · intro n h1 h2 h3; simp [parseSpec, h1, h2, h3]
  · intro n h1 h2 h3 h4; simp [parseSpec, h1, h2, h3, h4]

/-- C7 witness: "3mo" parses as 3 months via the amended description. -/
theorem parseSpec_amended_witness :
    parseSpec (some "3mo") = .ok (3, PeriodUnit.mo) :=
  (parseSpec_amended (some "3mo")).2.2.1 3 (by decide) (by decide)

/-! ### Calendar arithmetic: `dateutil.relativedelta` subtraction -/

/-- Gregorian leap year. -/
def isLeapYear (y : ℤ) : Bool :=
  y.emod 4 == 0 && (y.emod 100 != 0 || y.emod 400 == 0)

def daysInMonth (y m : ℤ) : ℤ :=
  if m = 2 then (if isLeapYear y then 29 else 28)
  else if m = 4 ∨ m = 6 ∨ m = 9 ∨ m = 11 then 30
  else 31

/-- `d - relativedelta(months=n)`: months normalised into 1..12 borrowing
years (floor division), day clamped to the target month's length. -/
def subMonths (d : Date) (n : ℤ) : Date :=
  let total := d.year * 12 + (d.month - 1) - n
  ⟨total.ediv 12, total.emod 12 + 1,
    min d.day (daysInMonth (total.ediv 12) (total.emod 12 + 1))⟩

/-- `d - relativedelta(years=n)`: subtract years, clamp the day (only the
Feb 29 case can clamp). -/
def subYears (d : Date) (n : ℤ) : Date :=
  ⟨d.year - n, d.month, min d.day (daysInMonth (d.year - n) d.month)⟩

/-- `end - (relativedelta(years=n) if unit == "yr" else
relativedelta(months=n))`. -/
def periodStart (endD : Date) (n : ℤ) : PeriodUnit → Date
  | .mo => subMonths endD n
  | .yr => subYears endD n

/-! ### Query Façade: `queryBySymbol` and `_load` -/

/-- Row order used by `ORDER BY dt`. -/
def rowLe (a b : Row) : Prop := Date.le a.dt b.dt

instance : DecidableRel rowLe := fun a b => by
  unfold rowLe; exact inferInstance

instance : IsTotal Row rowLe := ⟨fun a b => Date.le_total a.dt b.dt⟩

instance : IsTrans Row rowLe := ⟨fun _ _ _ => Date.le_trans⟩

/-- `SELECT * FROM ohlcv WHERE symbol = ? ORDER BY dt` with parameter
`symbol.upper()`; modelled with a sort (SQL fixes no tie order; `dt` ties
cannot matter to the claims below). -/
def queryBySymbol (tbl : List Row) (symbol : String) : List Row :=
  List.insertionSort rowLe (tbl.filter (fun r => r.symbol == pyUpper symbol))

/-- `df["dt"].max()` (meaningful on non-empty frames only). -/
def maxDt : List Row → Date
  | [] => ⟨1970, 1, 1⟩
  | r :: rest =>
    rest.foldl (fun acc x => if Date.le acc x.dt then x.dt else acc) r.dt

theorem maxDt_aux (rows : List Row) : ∀ acc : Date,
    Date.le acc
      (rows.foldl (fun a x => if Date.le a x.dt then x.dt else a) acc) ∧
    ∀ r ∈ rows,
      Date.le r.dt
        (rows.foldl (fun a x => if Date.le a x.dt then x.dt else a) acc) := by
  induction rows with
  | nil => intro acc; exact ⟨Date.le_refl acc, by simp⟩
  | cons x t ih =>
    intro acc
    have hfold : (x :: t).foldl
        (fun a x => if Date.le a x.dt then x.dt else a) acc =
        t.foldl (fun a x => if Date.le a x.dt then x.dt else a)
          (if Date.le acc x.dt then x.dt else acc) := rfl
    obtain ⟨h1, h2⟩ := ih (if Date.le acc x.dt then x.dt else acc)
    have hacc : Date.le acc (if Date.le acc x.dt then x.dt else acc) := by
      by_cases h : Date.le acc x.dt
      · simp only [if_pos h]
        exact h
      · simpa [h] using Date.le_refl acc
    have hx : Date.le x.dt (if Date.le acc x.dt then x.dt else acc) := by
      by_cases h : Date.le acc x.dt
      · simpa [h] using Date.le_refl x.dt
      · rcases Date.le_total x.dt acc with h' | h'
        · simp [h]
          exact h'
        · exact absurd h' h
    rw [hfold]
    refine ⟨Date.le_trans hacc h1, ?_⟩
    intro r hr
    rcases List.mem_cons.mp hr with h | h
    · subst h
      exact Date.le_trans hx h1
    · exact h2 r h

theorem maxDt_spec (rows : List Row) : ∀ r ∈ rows, Date.le r.dt (maxDt rows) := by
  cases rows with
  | nil => simp
  | cons x t =>
    intro r hr
    rcases List.mem_cons.mp hr with h | h
    · exact h ▸ (maxDt_aux t x.dt).1
    · exact (maxDt_aux t x.dt).2 r h

/-- `_load` (src/api/main.py lines 47-66): parse the period (a parse
failure propagates); a storage failure (`db = none`, the `except` branch)
yields an empty frame; otherwise query the symbol's rows ordered by `dt`,
return them as-is when empty, else keep the rows with
`dt >= max(dt) - period`. -/
def _load (db : Option (List Row)) (symbol : String)
    (period : Option String) : Except Unit (List Row) :=
  match parseSpec period with
  | .error e => .error e
  | .ok (n, u) =>
    match db with
    | none => .ok []
    | some tbl =>
      let df := queryBySymbol tbl symbol
      if df.isEmpty then .ok df
      else .ok (df.filter
        (fun r => decide (Date.le (periodStart (maxDt df) n u) r.dt)))

/-- C4: with the period parsed as (n, u), the windowed read over a stored
table returns exactly the stored rows of the (upper-cased) symbol whose
timestamp lies between `latest - period` and `latest` inclusive — where
`latest` is the maximum *stored* timestamp for the symbol, not the
wall-clock date — in ascending timestamp order; a symbol with no stored
rows yields an empty list, not an error. -/
theorem load_window_spec (tbl : List Row) (symbol : String)
    (period : Option String) (n : ℤ) (u : PeriodUnit)
    (hp : parseSpec period = .ok (n, u)) :
    (queryBySymbol tbl symbol = [] →
      _load (some tbl) symbol period = .ok []) ∧
    (queryBySymbol tbl symbol ≠ [] →
      ∃ res, _load (some tbl) symbol period = .ok res ∧
        res.Pairwise rowLe ∧
        res.Perm (tbl.filter (fun r =>
          r.symbol == pyUpper symbol &&
          (decide (Date.le
            (periodStart (maxDt (queryBySymbol tbl symbol)) n u) r.dt) &&
           decide (Date.le r.dt (maxDt (queryBySymbol tbl symbol)))))) ∧
        ∀ r ∈ res,
          Date.le (periodStart (maxDt (queryBySymbol tbl symbol)) n u)
            r.dt ∧
          Date.le r.dt (maxDt (queryBySymbol tbl symbol))) := by
  constructor
  · intro hq
    simp [_load, hp, hq]
  · intro hq
    have hne : (queryBySymbol tbl symbol).isEmpty = false := by
      cases hdfc : queryBySymbol tbl symbol with
      | nil => exact absurd hdfc hq
      | cons a l => simp
    refine ⟨(queryBySymbol tbl symbol).filter
      (fun r => decide (Date.le
        (periodStart (maxDt (queryBySymbol tbl symbol)) n u) r.dt)),
      ?_, ?_, ?_, ?_⟩
    · simp [_load, hp, hne]
    · exact List.Pairwise.sublist (List.filter_sublist _)
        (List.sorted_insertionSort rowLe _)
    · have hperm : (queryBySymbol tbl symbol).Perm
          (tbl.filter (fun r => r.symbol == pyUpper symbol)) :=
        List.perm_insertionSort rowLe _
      have h1 := hperm.filter
        (fun r => decide (Date.le
          (periodStart (maxDt (queryBySymbol tbl symbol)) n u) r.dt))
      rw [List.filter_filter] at h1
      have hcongr : ∀ r ∈ tbl,
          (decide (Date.le
              (periodStart (maxDt (queryBySymbol tbl symbol)) n u) r.dt) &&
            (r.symbol == pyUpper symbol)) =
          (r.symbol == pyUpper symbol &&
            (decide (Date.le
              (periodStart (maxDt (queryBySymbol tbl symbol)) n u) r.dt) &&
             decide (Date.le r.dt (maxDt (queryBySymbol tbl symbol))))) := by
        intro r hrt
        by_cases hs : (r.symbol == pyUpper symbol) = true
        · have hrdf : r ∈ queryBySymbol tbl symbol :=
            hperm.mem_iff.mpr (List.mem_filter.mpr ⟨hrt, hs⟩)
          have hle : Date.le r.dt (maxDt (queryBySymbol tbl symbol)) :=
            maxDt_spec _ r hrdf
          simp [hs, hle]
        · have hs' : (r.symbol == pyUpper symbol) = false := by
            simpa using hs
          simp [hs']
      rw [List.filter_congr hcongr] at h1
      exact h1
    · intro r hr
      rw [List.mem_filter] at hr
      exact ⟨of_decide_eq_true hr.2, maxDt_spec _ r hr.1⟩

/-- A stored bar for "ABC" at 2024-06-30 (inside a 3-month window). -/
def rowJun : Row := ⟨⟨2024, 6, 30⟩, 50, 51, 49, 50, 800, "ABC", 50, 50, 50⟩

/-- A stored bar for "ABC" at 2024-03-15 (outside a 3-month window
anchored at 2024-06-30). -/
def rowMar : Row := ⟨⟨2024, 3, 15⟩, 40, 41, 39, 40, 700, "ABC", 40, 40, 40⟩

/-- C4 witness: the spec's anchoring example — bars for "ABC" with max
stored timestamp 2024-06-30 queried with period "3mo". -/
theorem load_window_spec_witness :
    ∃ res, _load (some [rowJun, rowMar]) "abc" (some "3mo") = .ok res ∧
      res.Pairwise rowLe ∧
      res.Perm ([rowJun, rowMar].filter (fun r =>
        r.symbol == pyUpper "abc" &&
        (decide (Date.le
          (periodStart (maxDt (queryBySymbol [rowJun, rowMar] "abc")) 3
            PeriodUnit.mo) r.dt) &&
         decide (Date.le r.dt
           (maxDt (queryBySymbol [rowJun, rowMar] "abc")))))) ∧
      ∀ r ∈ res,
        Date.le (periodStart (maxDt (queryBySymbol [rowJun, rowMar] "abc"))
          3 PeriodUnit.mo) r.dt ∧
        Date.le r.dt (maxDt (queryBySymbol [rowJun, rowMar] "abc")) :=
  (load_window_spec [rowJun, rowMar] "abc" (some "3mo") 3 PeriodUnit.mo
    (by decide)).2 (by decide)

/-! ### Read API: `require_key` and `/quote` -/

/-- Python truthiness of `Optional[str]`: `None` and `""` are falsy. -/
def pyTruthy : Option String → Bool
  | none => false
  | some s => s != ""

/-- `require_key` (src/api/main.py lines 20-22):
`if API_KEY and x_api_key != API_KEY: raise HTTPException(401)`. -/
def require_key (apiKey x_api_key : Option String) : Except ℕ Unit :=
  if pyTruthy apiKey && x_api_key != apiKey then .error 401 else .ok ()

/-- The JSON body returned by `/quote`. -/
structure QuoteResp where
  symbol : String
  dt : Date
  close : ℚ
  volume : ℤ
  pct_change : ℚ
deriving DecidableEq, Repr

/-- `last = df.iloc[-1]`. -/
def lastBar (df : List Row) (h : df ≠ []) : Row := df.getLast h

/-- `prev = df.iloc[-2] if len(df) > 1 else last`. -/
def prevBar (df : List Row) (h : df ≠ []) : Row :=
  if 1 < df.length then df.getD (df.length - 2) (lastBar df h)
  else lastBar df h

/-- `pct = 0.0 if prev.close == 0 else (last.close - prev.close) /
prev.close * 100`. -/
def pctOf (df : List Row) (h : df ≠ []) : ℚ :=
  if (prevBar df h).close = 0 then 0
  else ((lastBar df h).close - (prevBar df h).close) / (prevBar df h).close
    * 100

/-- Python `round` to an integer: nearest, ties to even. -/
def roundHalfEven (q : ℚ) : ℤ :=
  let n := q.num
  let d := (q.den : ℤ)
  let fl := Int.ediv n d
  let r2 := 2 * (n - fl * d)
  if r2 < d then fl
  else if d < r2 then fl + 1
  else if fl % 2 = 0 then fl else fl + 1

/-- `round(pct, 3)`. -/
def pyRound3 (q : ℚ) : ℚ := ((roundHalfEven (q * 1000) : ℤ) : ℚ) / 1000

/-- The `/quote` handler body (src/api/main.py lines 69-83): load the
trailing 1-month window; an uncaught exception is a 500; an empty frame is
a 404; otherwise report the last bar and the percent change against the
prior bar. -/
def quote (db : Option (List Row)) (symbol : String) : Except ℕ QuoteResp :=
  match _load db symbol (some "1mo") with
  | .error _ => .error 500
  | .ok df =>
    if h : df = [] then .error 404
    else .ok ⟨pyUpper symbol, (lastBar df h).dt, (lastBar df h).close,
      (lastBar df h).volume, pyRound3 (pctOf df h)⟩

/-- `/quote` with its `Depends(require_key)` guard: the dependency runs
before the handler touches storage. -/
def quoteEndpoint (apiKey x_api_key : Option String)
    (db : Option (List Row)) (symbol : String) : Except ℕ QuoteResp :=
  match require_key apiKey x_api_key with
  | .error c => .error c
  | .ok _ => quote db symbol

/-- The window the `/quote` handler computes over (empty when `_load`
raised). -/
def windowOf (db : Option (List Row)) (symbol : String) : List Row :=
  match _load db symbol (some "1mo") with
  | .error _ => []
  | .ok df => df

theorem quote_ne_401 (db : Option (List Row)) (symbol : String) :
    quote db symbol ≠ .error 401 := by
  cases hres : _load db symbol (some "1mo") with
  | error e => simp [quote, hres]
  | ok df =>
    by_cases h : df = []
    · simp [quote, hres, h]
    · simp [quote, hres, h]

/-- C9: with a (non-empty) shared secret configured, a request is rejected
with 401 — before any storage access: uniformly in the store — exactly
when the api-key header is missing or differs from the secret; with no
secret configured every request goes straight to the handler. -/
theorem require_key_spec (k : String) (hk : k ≠ "") (x : Option String)
    (db : Option (List Row)) (symbol : String) :
    (x ≠ some k → ∀ db' : Option (List Row),
      quoteEndpoint (some k) x db' symbol = .error 401) ∧
    (x = some k → quoteEndpoint (some k) x db symbol = quote db symbol) ∧
    (quoteEndpoint (some k) x db symbol = .error 401 ↔ x ≠ some k) ∧
    (∀ x' : Option String,
      quoteEndpoint none x' db symbol = quote db symbol) := by
  have htr : pyTruthy (some k) = true := by
    simp [pyTruthy]
    exact hk
  have hrej : x ≠ some k → ∀ db' : Option (List Row),
      quoteEndpoint (some k) x db' symbol = .error 401 := by
    intro hx db'
    have hbne : (x != some k) = true := bne_iff_ne.mpr hx
    simp [quoteEndpoint, require_key, htr, hbne]
  have hpass : x = some k →
      quoteEndpoint (some k) x db symbol = quote db symbol := by
    intro hx
    subst hx
    simp [quoteEndpoint, require_key]
  refine ⟨hrej, hpass, ?_, ?_⟩
  · constructor
    · intro h401
      intro hx
      rw [hpass hx] at h401
      exact quote_ne_401 db symbol h401
    · intro hx
      exact hrej hx db
  · intro x'
    simp [quoteEndpoint, require_key, pyTruthy]

/-- C9 witness: secret "secret" configured, header absent — rejected with
401 whatever the store holds. -/
theorem require_key_spec_witness :
    quoteEndpoint (some "secret") none none "ABC" = .error 401 :=
  (require_key_spec "secret" (by decide) none none "ABC").1 (by decide) none

/-- C8 (counterexample): with the store unreachable (`db = none`, the
`except` branch of `_load`), `/quote` answers 404 not-found — not the
generic server failure (500) the claim requires. -/
theorem storage_failure_counterexample :
    quoteEndpoint none none none "ABC" = .error 404 ∧
    quoteEndpoint none none none "ABC" ≠ .error 500 := by decide

/-- C8 (amended): when the store is unreachable or the read query fails,
`_load` swallows the exception into an empty frame, so an authorized
read-path request surfaces a 404 not-found — indistinguishable from
missing data — rather than a generic server failure. -/
theorem storage_failure_reads_as_not_found (apiKey x : Option String)
    (symbol : String) (hauth : require_key apiKey x = .ok ()) :
    quoteEndpoint apiKey x none symbol = .error 404 ∧
    quoteEndpoint apiKey x none symbol ≠ .error 500 := by
  have hp : parseSpec (some "1mo") = .ok (1, PeriodUnit.mo) := by decide
  have hload : _load none symbol (some "1mo") = .ok [] := by
    simp [_load, hp]
  constructor
  · simp [quoteEndpoint, hauth, quote, hload]
  · simp [quoteEndpoint, hauth, quote, hload]

/-- C8 witness: no secret configured, no header, unreachable store. -/
theorem storage_failure_reads_as_not_found_witness :
    quoteEndpoint none none none "XY" = .error 404 ∧
    quoteEndpoint none none none "XY" ≠ .error 500 :=
  storage_failure_reads_as_not_found none none "XY" (by decide)

theorem pyRound3_zero : pyRound3 0 = 0 := by with_unfolding_all decide

/-- C10: `/quote` never divides by zero — when the trailing window holds
exactly one bar, the prior bar is the latest bar itself and the reported
pct_change is 0; and whenever the prior close is 0, pct_change is reported
as 0 by the guard rather than dividing. -/
theorem quote_pct_spec (db : Option (List Row)) (symbol : String) :
    (∀ h : windowOf db symbol ≠ [],
      (windowOf db symbol).length = 1 →
        prevBar (windowOf db symbol) h = lastBar (windowOf db symbol) h ∧
        pctOf (windowOf db symbol) h = 0) ∧
    (∀ h : windowOf db symbol ≠ [],
      (prevBar (windowOf db symbol) h).close = 0 →
        pctOf (windowOf db symbol) h = 0) ∧
    (∀ resp : QuoteResp, quote db symbol = .ok resp →
      ∃ h : windowOf db symbol ≠ [],
        resp.pct_change = pyRound3 (pctOf (windowOf db symbol) h)) ∧
    (∀ resp : QuoteResp, quote db symbol = .ok resp →
      (windowOf db symbol).length = 1 → resp.pct_change = 0) := by
  have hone : ∀ (df : List Row) (h : df ≠ []), df.length = 1 →
      prevBar df h = lastBar df h ∧ pctOf df h = 0 := by
    intro df h hlen
    have hprev : prevBar df h = lastBar df h := by
      simp [prevBar, hlen]
    refine ⟨hprev, ?_⟩
    rw [pctOf, hprev]
    by_cases hc : (lastBar df h).close = 0
    · simp [hc]
    · simp [hc]
  have hval : ∀ resp : QuoteResp, quote db symbol = .ok resp →
      ∃ h : windowOf db symbol ≠ [],
        resp.pct_change = pyRound3 (pctOf (windowOf db symbol) h) := by
    intro resp hq
    cases hres : _load db symbol (some "1mo") with
    | error e => simp [quote, hres] at hq
    | ok df =>
      have hw : windowOf db symbol = df := by simp [windowOf, hres]
      by_cases hdf : df = []
      · simp [quote, hres, hdf] at hq
      · simp only [quote, hres] at hq
        rw [dif_neg hdf] at hq
        injection hq with hq'
        rw [hw]
        exact ⟨hdf, by rw [← hq']⟩
  refine ⟨?_, ?_, hval, ?_⟩
  · intro h hlen
    exact hone _ h hlen
  · intro h hz
    simp [pctOf, hz]
  · intro resp hq hlen
    obtain ⟨h, hpct⟩ := hval resp hq
    rw [hpct, (hone _ h hlen).2, pyRound3_zero]

set_option maxRecDepth 8000 in
/-- C10 witness: a store holding a single bar for "A" — the 1-month quote
window has exactly one bar and pct_change comes out 0. -/
theorem quote_pct_spec_witness :
    quote (some [rowA10]) "A" =
      .ok ⟨"A", d0, 10, 1000, 0⟩ ∧
    (⟨"A", d0, 10, 1000, 0⟩ : QuoteResp).pct_change = 0 :=
  ⟨by with_unfolding_all decide,
    (quote_pct_spec (some [rowA10]) "A").2.2.2 ⟨"A", d0, 10, 1000, 0⟩
      (by with_unfolding_all decide) (by decide)⟩

end Trading
